import Mathlib

/-!
Verification of the Unicode Font Provisioning Subsystem of pdf-lib-unicode.

The development shallowly embeds the module `src/fonts/index.ts` (the bundled
font asset cache), the options interfaces of `src/api/PDFDocumentOptions.ts`,
and — where the deciding code is not part of the provided sources — the
font-resolution policy and the existing-field migrator as described by the
specification.
-/

/-- Byte buffers (`Uint8Array` in the source) as lists of byte values. -/
abbrev Bytes := List Nat

/-- The value thrown by a failing `decodeFromBase64` call; the fonts
module never inspects its payload. -/
abbrev DecodeError := String

/-- Opaque font handles (`PDFFont` references embedded by the document
engine); equality is by reference, modelled by a numeric identity. -/
abbrev FontHandle := Nat

/-- The mutable module-level state of `src/fonts/index.ts`: the single
binding `let cachedFontBytes: Uint8Array | null = null` (line 15). -/
structure FontsState where
  cachedFontBytes : Option Bytes

/-- The initial module state: `cachedFontBytes = null`. -/
def initialFontsState : FontsState := ⟨none⟩

/-- Embedding of `getBundledUnicodeFontBytes` (src/fonts/index.ts lines 23-30).
The decoder `decodeFromBase64(NOTO_SANS_REGULAR_BASE64)` lives outside the
module and is deterministic, so its outcome is a parameter `d`: `.ok b`
when the payload decodes to `b`, `.error e` when it throws `e`.  A
`Uint8Array` is always truthy in JavaScript, so the `if (cachedFontBytes)`
guard is exactly a match on the option.  On a throw the assignment on line
28 never executes, so the state is returned unchanged. -/
def getBundledUnicodeFontBytes (d : Except DecodeError Bytes)
    (s : FontsState) : FontsState × Except DecodeError Bytes :=
  match s.cachedFontBytes with
  | some b => (s, .ok b)
  | none =>
    match d with
    | .ok b => (⟨some b⟩, .ok b)
    | .error e => (s, .error e)

/-- Embedding of `getBundledUnicodeFontBytesSync` (src/fonts/index.ts lines 38-40):
returns `cachedFontBytes` as is. -/
def getBundledUnicodeFontBytesSync (s : FontsState) : Option Bytes :=
  s.cachedFontBytes

/-- Embedding of `preloadBundledUnicodeFont` (src/fonts/index.ts lines 46-48):
`await getBundledUnicodeFontBytes()` with the result discarded; a rejection
propagates. -/
def preloadBundledUnicodeFont (d : Except DecodeError Bytes)
    (s : FontsState) : FontsState × Except DecodeError Unit :=
  let r := getBundledUnicodeFontBytes d s
  (r.1, r.2.map fun _ => ())

/-- Embedding of `isBundledUnicodeFontLoaded` (src/fonts/index.ts lines 53-55):
`cachedFontBytes !== null`. -/
def isBundledUnicodeFontLoaded (s : FontsState) : Bool :=
  s.cachedFontBytes.isSome

/-- The four exported operations of the fonts module. -/
inductive FontsOp where
  | getBytes
  | getBytesSync
  | preload
  | isLoaded

/-- The value an operation returns to its caller. -/
inductive OpResult where
  | bytesResult (r : Except DecodeError Bytes)
  | syncResult (r : Option Bytes)
  | preloadResult (r : Except DecodeError Unit)
  | loadedResult (r : Bool)

/-- Run one operation: the resulting state, the caller-visible result, and
the number of `decodeFromBase64` invocations the call performed (the decoder
runs exactly when `getBytes`/`preload` find the cache empty, lines 24/28). -/
def applyOp (d : Except DecodeError Bytes) :
    FontsOp → FontsState → FontsState × OpResult × Nat
  | .getBytes, s =>
    let r := getBundledUnicodeFontBytes d s
    (r.1, .bytesResult r.2, if s.cachedFontBytes.isNone then 1 else 0)
  | .getBytesSync, s => (s, .syncResult (getBundledUnicodeFontBytesSync s), 0)
  | .preload, s =>
    let r := preloadBundledUnicodeFont d s
    (r.1, .preloadResult r.2, if s.cachedFontBytes.isNone then 1 else 0)
  | .isLoaded, s => (s, .loadedResult (isBundledUnicodeFontLoaded s), 0)

/-- Run a sequence of operations against the module state, collecting every
result and the total number of decoder invocations. -/
def runOps (d : Except DecodeError Bytes) :
    List FontsOp → FontsState → FontsState × List OpResult × Nat
  | [], s => (s, [], 0)
  | op :: ops, s =>
    let r := applyOp d op s
    let rest := runOps d ops r.1
    (rest.1, r.2.1 :: rest.2.1, r.2.2 + rest.2.2)

/-!
A statement-level concurrency model of `getBundledUnicodeFontBytes`.
A caller of the getter is at one of three program points of the body:
`pc = 0` — about to execute the cache check of line 24; `pc = 1` — past the
check having found the cache empty, about to execute the decode-and-store
of line 28; `pc = 2` — returned.  A schedule is the order in which the
pending callers execute their next statement.  The body contains no
`await` between the check and the store, so under JavaScript
run-to-completion the two statements of one call always execute
back-to-back (`atomicSched`); schedules that suspend a caller between its
check and its store model the window that would exist if the decode were
awaited in flight.
-/

/-- Shared state under concurrent callers: the module cache, the program
point of each caller, and the number of decoder invocations so far. -/
structure ConcState where
  cache : Option Bytes
  pcs : List Nat
  decodes : Nat

/-- Caller `i` executes its next statement of the getter body. -/
def microStep (B : Bytes) (s : ConcState) (i : Nat) : ConcState :=
  match s.pcs[i]? with
  | none => s
  | some pc =>
    if pc = 0 then
      match s.cache with
      | some _ => { s with pcs := s.pcs.set i 2 }
      | none => { s with pcs := s.pcs.set i 1 }
    else if pc = 1 then
      { cache := some B, pcs := s.pcs.set i 2, decodes := s.decodes + 1 }
    else s

/-- Execute a schedule of caller steps. -/
def runSched (B : Bytes) (sched : List Nat) (s : ConcState) : ConcState :=
  sched.foldl (microStep B) s

/-- State of `n` concurrent first-callers against the unloaded module. -/
def initConc (n : Nat) : ConcState := ⟨none, List.replicate n 0, 0⟩

/-- The schedules JavaScript run-to-completion allows for the awaitless
body: the two statements of each call run back-to-back, calls in any
order. -/
def atomicSched : List Nat → List Nat
  | [] => []
  | i :: rest => i :: i :: atomicSched rest

/-- Invariant between atomic calls: no caller is suspended mid-body, the
decoder has not run while the cache is empty, and it ran at most once. -/
def ConcInv (s : ConcState) : Prop :=
  (∀ p ∈ s.pcs, p = 0 ∨ p = 2) ∧
    (s.cache = none → s.decodes = 0) ∧ s.decodes ≤ 1

/-!
The font-resolution policy and the existing-field migrator.  The deciding
code (`PDFForm`) is not among the provided sources — only its option
interfaces and documentation are — so these are modelled from the
specification, sections 4.2 and 4.4.
-/

/-- Per-form provisioning state (spec section 3): the default font handle
of the form, absent until provisioning, and the fontkit-registration
flag. -/
structure ProvisioningState where
  defaultFontHandle : Option FontHandle
  fontkitRegistered : Bool

/-- Modelled from the spec: `effectiveFormFont(formState)` of the
FontResolutionPolicy (`PDFForm` is missing from the sources) — the
`defaultFontHandle` of the form if set, else absent. -/
def effectiveFormFont (formState : ProvisioningState) : Option FontHandle :=
  formState.defaultFontHandle

/-- Modelled from the spec: `effectiveFieldFont(fieldOverride, formState)`
of the FontResolutionPolicy (`PDFForm` is missing from the sources) — the
override of the field if present, else the form-level resolution. -/
def effectiveFieldFont (fieldOverride : Option FontHandle)
    (formState : ProvisioningState) : Option FontHandle :=
  match fieldOverride with
  | some f => some f
  | none => effectiveFormFont formState

/-- Modelled from the spec: recording the form default (the
`setDefaultFont` / provisioning store into `ProvisioningState`). -/
def setFormDefault (dflt : FontHandle)
    (formState : ProvisioningState) : ProvisioningState :=
  { formState with defaultFontHandle := some dflt }

/-- Modelled from the spec: the full resolution including the document
built-in standard font of the document engine as the final fallback. -/
def resolveFieldFont (standardFont : FontHandle)
    (fieldOverride : Option FontHandle)
    (formState : ProvisioningState) : FontHandle :=
  (effectiveFieldFont fieldOverride formState).getD standardFont

/-- A form field as this subsystem sees it: a mutable font-reference slot
and a mutable text slot, independent of each other. -/
structure FormField where
  fontOverride : Option FontHandle
  text : String

/-- Modelled from the spec: the per-field action of
`migrate(form, handle)` of the ExistingFieldMigrator (`PDFForm` is missing
from the sources) — backfill an unset override with `handle`, leave a field
with an explicit override untouched. -/
def migrateField (handle : FontHandle) (f : FormField) : FormField :=
  match f.fontOverride with
  | some _ => f
  | none => { f with fontOverride := some handle }

/-- Modelled from the spec: `migrate(form, handle)` applied to every field
currently attached to the form. -/
def migrate (handle : FontHandle) (fields : List FormField) : List FormField :=
  fields.map (migrateField handle)

/-!
The options interfaces of `src/api/PDFDocumentOptions.ts`.
-/

/-- Embedding of `LoadOptions` (PDFDocumentOptions.ts lines 24-51): every member is
optional; `unicodeFont` and `updateExistingFields` are the two
Unicode-provisioning options. -/
structure LoadOptions where
  ignoreEncryption : Option Bool
  parseSpeed : Option Nat
  throwOnInvalidObject : Option Bool
  updateMetadata : Option Bool
  capNumbers : Option Bool
  unicodeFont : Option Bytes
  updateExistingFields : Option Bool

/-- Embedding of `CreateOptions` (PDFDocumentOptions.ts lines 53-69): `updateMetadata`
and `unicodeFont` are its only members. -/
structure CreateOptions where
  updateMetadata : Option Bool
  unicodeFont : Option Bytes

/-- The Unicode-provisioning option names the `LoadOptions` interface
declares (lines 43 and 50). -/
def LoadOptions.unicodeOptionNames : List String :=
  ["unicodeFont", "updateExistingFields"]

/-- The Unicode-provisioning option names the `CreateOptions` interface
declares (line 68 only). -/
def CreateOptions.unicodeOptionNames : List String :=
  ["unicodeFont"]

/-- The effective value of `updateExistingFields`, applying the documented
default `false` (PDFDocumentOptions.ts line 48) when the option is
absent. -/
def LoadOptions.updateExistingFieldsValue (o : LoadOptions) : Bool :=
  o.updateExistingFields.getD false

/-- Once the cache holds `b`, a `getBytes` call is a pure cache hit. -/
theorem getBytes_hit (d : Except DecodeError Bytes) (s : FontsState)
    (b : Bytes) (h : s.cachedFontBytes = some b) :
    getBundledUnicodeFontBytes d s = (s, .ok b) := by
  unfold getBundledUnicodeFontBytes
  rw [h]

/-- Once the cache holds `b`, any run of `getBytes` calls performs no decode,
leaves the state untouched and returns `b` to every caller. -/
theorem runOps_getBytes_loaded (d : Except DecodeError Bytes) (b : Bytes) :
    ∀ n : Nat, runOps d (List.replicate n .getBytes) ⟨some b⟩ =
      (⟨some b⟩, List.replicate n (.bytesResult (.ok b)), 0) := by
  intro n
  induction n with
  | zero => rfl
  | succ m ih =>
    simp only [List.replicate_succ, runOps, applyOp,
      getBytes_hit d ⟨some b⟩ b rfl]
    simp [ih]

/-- C1: starting from the unloaded state, a sequence of `n ≥ 1` calls to
`getBundledUnicodeFontBytes` performs exactly one base64 decode — on the
first call — and every call returns the same cached byte buffer `B`. -/
theorem bundled_decode_once (B : Bytes) (n : Nat) (hn : 1 ≤ n) :
    runOps (.ok B) (List.replicate n .getBytes) initialFontsState =
      (⟨some B⟩, List.replicate n (.bytesResult (.ok B)), 1) := by
  obtain ⟨m, rfl⟩ : ∃ m, n = m + 1 := ⟨n - 1, (Nat.succ_pred_eq_of_pos hn).symm⟩
  simp only [List.replicate_succ, runOps, initialFontsState, applyOp,
    getBundledUnicodeFontBytes]
  simp [runOps_getBytes_loaded, List.replicate_succ]

/-- C1 witness: three successive calls from the unloaded state decode once
and each return the decoded buffer. -/
theorem bundled_decode_once_witness :
    runOps (.ok [7, 8]) (List.replicate 3 .getBytes) initialFontsState =
      (⟨some [7, 8]⟩, List.replicate 3 (.bytesResult (.ok [7, 8])), 1) :=
  bundled_decode_once [7, 8] 3 (by decide)

/-- C4: when the decoder throws while the asset is unloaded, the failure
propagates unchanged to the caller of `getBundledUnicodeFontBytes`, the
state is exactly the state before the call, and the asset remains
unloaded (`cachedFontBytes` still `null`, `isBundledUnicodeFontLoaded`
still `false`). -/
theorem decode_failure_propagates (e : DecodeError) (s : FontsState)
    (h : s.cachedFontBytes = none) :
    getBundledUnicodeFontBytes (.error e) s = (s, .error e) ∧
      (getBundledUnicodeFontBytes (.error e) s).1.cachedFontBytes = none ∧
      isBundledUnicodeFontLoaded (getBundledUnicodeFontBytes (.error e) s).1
        = false := by
  unfold getBundledUnicodeFontBytes isBundledUnicodeFontLoaded
  rw [h]
  exact ⟨rfl, h, by rw [h]; rfl⟩

/-- C4 witness: a concrete failed decode from the unloaded state. -/
theorem decode_failure_propagates_witness :
    getBundledUnicodeFontBytes (.error "corrupt") initialFontsState =
        (initialFontsState, .error "corrupt") ∧
      (getBundledUnicodeFontBytes (.error "corrupt")
        initialFontsState).1.cachedFontBytes = none ∧
      isBundledUnicodeFontLoaded (getBundledUnicodeFontBytes (.error "corrupt")
        initialFontsState).1 = false :=
  decode_failure_propagates "corrupt" initialFontsState rfl

/-- C7: `preloadBundledUnicodeFont` is `getBundledUnicodeFontBytes` with the
result discarded: from every starting state, both leave the cache in the
same state, and preload rejects with exactly the errors the getter rejects
with (and succeeds exactly when the getter succeeds). -/
theorem preload_equiv (d : Except DecodeError Bytes) (s : FontsState) :
    (preloadBundledUnicodeFont d s).1 = (getBundledUnicodeFontBytes d s).1 ∧
      (∀ e : DecodeError, (preloadBundledUnicodeFont d s).2 = .error e ↔
        (getBundledUnicodeFontBytes d s).2 = .error e) ∧
      ((preloadBundledUnicodeFont d s).2 = .ok () ↔
        ∃ b, (getBundledUnicodeFontBytes d s).2 = .ok b) := by
  unfold preloadBundledUnicodeFont
  refine ⟨rfl, ?_, ?_⟩
  · intro e
    cases h : (getBundledUnicodeFontBytes d s).2 <;> simp [Except.map, h]
  · cases h : (getBundledUnicodeFontBytes d s).2 <;> simp [Except.map, h]

/-- C7 witness: preload from the unloaded state on a successful decode
caches exactly as the getter does and succeeds exactly when it does. -/
theorem preload_equiv_witness :
    (preloadBundledUnicodeFont (.ok [1]) initialFontsState).1 =
        (getBundledUnicodeFontBytes (.ok [1]) initialFontsState).1 ∧
      (∀ e : DecodeError,
        (preloadBundledUnicodeFont (.ok [1]) initialFontsState).2 = .error e ↔
        (getBundledUnicodeFontBytes (.ok [1]) initialFontsState).2
          = .error e) ∧
      ((preloadBundledUnicodeFont (.ok [1]) initialFontsState).2 = .ok () ↔
        ∃ b, (getBundledUnicodeFontBytes (.ok [1]) initialFontsState).2
          = .ok b) :=
  preload_equiv (.ok [1]) initialFontsState

/-- A loaded cache survives any single operation unchanged, with no decoder
invocation. -/
theorem applyOp_loaded (d : Except DecodeError Bytes) (op : FontsOp)
    (s : FontsState) (b : Bytes) (h : s.cachedFontBytes = some b) :
    (applyOp d op s).1.cachedFontBytes = some b ∧
      (applyOp d op s).2.2 = 0 := by
  cases op <;>
    simp [applyOp, preloadBundledUnicodeFont, getBytes_hit d s b h, h]

/-- C8: once the bundled asset is decoded and cached as buffer `b`, every
subsequent sequence of cache operations (`getBytes`, `getBytesSync`,
`preload`, `isLoaded`) performs zero further decodes and leaves the very
same buffer `b` cached: the cache is read-only after its first write. -/
theorem cache_readonly_after_load (d : Except DecodeError Bytes)
    (ops : List FontsOp) (s : FontsState) (b : Bytes)
    (h : s.cachedFontBytes = some b) :
    (runOps d ops s).1.cachedFontBytes = some b ∧
      (runOps d ops s).2.2 = 0 := by
  induction ops generalizing s with
  | nil => exact ⟨h, rfl⟩
  | cons op ops ih =>
    obtain ⟨h1, h2⟩ := applyOp_loaded d op s b h
    obtain ⟨h3, h4⟩ := ih (applyOp d op s).1 h1
    simp only [runOps]
    exact ⟨h3, by rw [h2, h4]⟩

/-- C8 witness: after a load, a concrete run of all four operations keeps
the cached buffer and never decodes again. -/
theorem cache_readonly_after_load_witness :
    (runOps (.ok [9]) [.isLoaded, .getBytes, .getBytesSync, .preload]
        ⟨some [2, 3]⟩).1.cachedFontBytes = some [2, 3] ∧
      (runOps (.ok [9]) [.isLoaded, .getBytes, .getBytesSync, .preload]
        ⟨some [2, 3]⟩).2.2 = 0 :=
  cache_readonly_after_load (.ok [9])
    [.isLoaded, .getBytes, .getBytesSync, .preload] ⟨some [2, 3]⟩ [2, 3] rfl

/-- Across any run, the cache is populated exactly when it already was, or
some call in the run invoked the decoder and the decoder succeeds. -/
theorem runOps_loaded_iff (d : Except DecodeError Bytes)
    (ops : List FontsOp) (s : FontsState) :
    (runOps d ops s).1.cachedFontBytes.isSome = true ↔
      (s.cachedFontBytes.isSome = true ∨
        (1 ≤ (runOps d ops s).2.2 ∧ d.isOk = true)) := by
  induction ops generalizing s with
  | nil => simp [runOps]
  | cons op ops ih =>
    simp only [runOps]
    cases hs : s.cachedFontBytes with
    | some b =>
      obtain ⟨h1, _⟩ := applyOp_loaded d op s b hs
      obtain ⟨h3, _⟩ := cache_readonly_after_load d ops (applyOp d op s).1 b h1
      simp [h3, hs]
    | none =>
      cases op with
      | getBytesSync =>
        simpa [applyOp, hs] using ih s
      | isLoaded =>
        simpa [applyOp, hs] using ih s
      | getBytes =>
        cases hd : d with
        | ok b =>
          subst hd
          have h1 : (applyOp (.ok b) .getBytes s).1 = ⟨some b⟩ := by
            simp [applyOp, getBundledUnicodeFontBytes, hs]
          have hk : (applyOp (Except.ok b) FontsOp.getBytes s).2.2 = 1 := by
            simp [applyOp, hs]
          obtain ⟨h3, _⟩ :=
            cache_readonly_after_load (.ok b) ops ⟨some b⟩ b rfl
          rw [h1, hk]
          simp [h3, hs, Except.isOk, Except.toBool]
        | error e =>
          subst hd
          have h1 : (applyOp (.error e) .getBytes s).1 = s := by
            simp [applyOp, getBundledUnicodeFontBytes, hs]
          rw [h1]
          have h2 := ih s
          simp only [hs, Option.isSome_none, Except.isOk, Except.toBool,
            Bool.false_eq_true, and_false, false_or] at h2 ⊢
          simp [h2]
      | preload =>
        cases hd : d with
        | ok b =>
          subst hd
          have h1 : (applyOp (.ok b) .preload s).1 = ⟨some b⟩ := by
            simp [applyOp, preloadBundledUnicodeFont,
              getBundledUnicodeFontBytes, hs]
          have hk : (applyOp (Except.ok b) FontsOp.preload s).2.2 = 1 := by
            simp [applyOp, hs]
          obtain ⟨h3, _⟩ :=
            cache_readonly_after_load (.ok b) ops ⟨some b⟩ b rfl
          rw [h1, hk]
          simp [h3, hs, Except.isOk, Except.toBool]
        | error e =>
          subst hd
          have h1 : (applyOp (.error e) .preload s).1 = s := by
            simp [applyOp, preloadBundledUnicodeFont,
              getBundledUnicodeFontBytes, hs]
          rw [h1]
          have h2 := ih s
          simp only [hs, Option.isSome_none, Except.isOk, Except.toBool,
            Bool.false_eq_true, and_false, false_or] at h2 ⊢
          simp [h2]

/-- C9: `isBundledUnicodeFontLoaded` is a pure read — it changes nothing and
never invokes the decoder — and, over every run started from the unloaded
module state, it returns `true` exactly when a decode has already occurred
(some call invoked the decoder and the decode succeeds). -/
theorem isLoaded_reports_decode (d : Except DecodeError Bytes) :
    (∀ s : FontsState, applyOp d .isLoaded s =
        (s, .loadedResult (isBundledUnicodeFontLoaded s), 0)) ∧
      (∀ ops : List FontsOp,
        isBundledUnicodeFontLoaded (runOps d ops initialFontsState).1 = true ↔
          (1 ≤ (runOps d ops initialFontsState).2.2 ∧ d.isOk = true)) := by
  refine ⟨fun s => rfl, fun ops => ?_⟩
  have h := runOps_loaded_iff d ops initialFontsState
  simpa [initialFontsState, isBundledUnicodeFontLoaded] using h

/-- C9 witness: from the unloaded state, checking then fetching then
checking shows the report flips exactly with the successful decode. -/
theorem isLoaded_reports_decode_witness :
    applyOp (.ok [4]) .isLoaded initialFontsState =
        (initialFontsState, .loadedResult false, 0) ∧
      (isBundledUnicodeFontLoaded
          (runOps (.ok [4]) [.isLoaded, .getBytes] initialFontsState).1
            = true ↔
        (1 ≤ (runOps (.ok [4]) [.isLoaded, .getBytes] initialFontsState).2.2 ∧
          (Except.ok [4] : Except DecodeError Bytes).isOk = true)) :=
  ⟨(isLoaded_reports_decode (.ok [4])).1 initialFontsState,
    (isLoaded_reports_decode (.ok [4])).2 [.isLoaded, .getBytes]⟩

/-- C10: the synchronous getter is a pure read (no decode, no state change),
returns `null` exactly when `isBundledUnicodeFontLoaded` is `false`, and
after `getBundledUnicodeFontBytes` resolves with buffer `b` it returns
exactly that cached buffer `b`. -/
theorem sync_getter_consistent (d : Except DecodeError Bytes) :
    (∀ s : FontsState, applyOp d .getBytesSync s =
        (s, .syncResult (getBundledUnicodeFontBytesSync s), 0)) ∧
      (∀ s : FontsState, getBundledUnicodeFontBytesSync s = none ↔
        isBundledUnicodeFontLoaded s = false) ∧
      (∀ (s : FontsState) (b : Bytes),
        (getBundledUnicodeFontBytes d s).2 = .ok b →
          getBundledUnicodeFontBytesSync (getBundledUnicodeFontBytes d s).1
            = some b) := by
  refine ⟨fun s => rfl, fun s => ?_, fun s b h => ?_⟩
  · cases hs : s.cachedFontBytes <;>
      simp [getBundledUnicodeFontBytesSync, isBundledUnicodeFontLoaded, hs]
  · cases hs : s.cachedFontBytes with
    | some c =>
      rw [getBytes_hit d s c hs] at h ⊢
      cases h
      exact hs
    | none =>
      cases hd : d with
      | ok b0 =>
        simp only [getBundledUnicodeFontBytes, hs, hd] at h ⊢
        cases h
        rfl
      | error e =>
        simp [getBundledUnicodeFontBytes, hs, hd] at h

/-- C10 witness: concrete reads around a successful fetch. -/
theorem sync_getter_consistent_witness :
    applyOp (.ok [5]) .getBytesSync initialFontsState =
        (initialFontsState, .syncResult none, 0) ∧
      (getBundledUnicodeFontBytesSync initialFontsState = none ↔
        isBundledUnicodeFontLoaded initialFontsState = false) ∧
      getBundledUnicodeFontBytesSync
        (getBundledUnicodeFontBytes (.ok [5]) initialFontsState).1
          = some [5] :=
  ⟨(sync_getter_consistent (.ok [5])).1 initialFontsState,
    (sync_getter_consistent (.ok [5])).2.1 initialFontsState,
    (sync_getter_consistent (.ok [5])).2.2 initialFontsState [5] rfl⟩

/-- One atomic call — its two statements back-to-back — preserves the
between-calls invariant. -/
theorem concInv_block (B : Bytes) (s : ConcState) (i : Nat)
    (h : ConcInv s) : ConcInv (microStep B (microStep B s i) i) := by
  obtain ⟨hpcs, hnone, hle⟩ := h
  cases hp : s.pcs[i]? with
  | none =>
    simp only [microStep, hp]
    exact ⟨hpcs, hnone, hle⟩
  | some pc =>
    have hmem : pc ∈ s.pcs := List.getElem?_mem hp
    have hlen : i < s.pcs.length := (List.getElem?_eq_some_iff.1 hp).1
    rcases hpcs pc hmem with h0 | h2
    · subst h0
      cases hc : s.cache with
      | some c =>
        have step1 : microStep B s i = { s with pcs := s.pcs.set i 2 } := by
          simp [microStep, hp, hc]
        rw [step1]
        have hp2 : (s.pcs.set i 2)[i]? = some 2 :=
          List.getElem?_set_self hlen
        have step2 : microStep B { s with pcs := s.pcs.set i 2 } i =
            { s with pcs := s.pcs.set i 2 } := by
          simp [microStep, hp2]
        rw [step2]
        refine ⟨?_, ?_, hle⟩
        · intro p hpset
          rcases List.mem_or_eq_of_mem_set hpset with hin | h2p
          · exact hpcs p hin
          · exact Or.inr h2p
        · intro hcnone
          rw [hc] at hcnone
          cases hcnone
      | none =>
        have step1 : microStep B s i = { s with pcs := s.pcs.set i 1 } := by
          simp [microStep, hp, hc]
        rw [step1]
        have hp1 : (s.pcs.set i 1)[i]? = some 1 :=
          List.getElem?_set_self hlen
        have step2 : microStep B { s with pcs := s.pcs.set i 1 } i =
            { cache := some B, pcs := (s.pcs.set i 1).set i 2,
              decodes := s.decodes + 1 } := by
          simp [microStep, hp1]
        rw [step2]
        have hd0 : s.decodes = 0 := hnone hc
        refine ⟨?_, ?_, ?_⟩
        · intro p hpset
          rw [List.set_set] at hpset
          rcases List.mem_or_eq_of_mem_set hpset with hin | h2p
          · exact hpcs p hin
          · exact Or.inr h2p
        · intro hcnone
          cases hcnone
        · show s.decodes + 1 ≤ 1
          omega
    · subst h2
      have step1 : microStep B s i = s := by
        simp [microStep, hp]
      rw [step1, step1]
      exact ⟨hpcs, hnone, hle⟩

/-- Any sequence of atomic calls preserves the invariant. -/
theorem runSched_atomic_inv (B : Bytes) (order : List Nat) :
    ∀ s : ConcState, ConcInv s → ConcInv (runSched B (atomicSched order) s) := by
  induction order with
  | nil => exact fun s h => h
  | cons i rest ih =>
    intro s h
    have : runSched B (atomicSched (i :: rest)) s =
        runSched B (atomicSched rest) (microStep B (microStep B s i) i) := rfl
    rw [this]
    exact ih _ (concInv_block B s i h)

/-- C3 (amended): the getter body has no `await` between the cache check
and the cache write, so under JavaScript run-to-completion each call runs
its two statements atomically; for any number of concurrent first-callers
scheduled whole-call-at-a-time in any order, the decoder runs at most
once. -/
theorem atomic_calls_decode_at_most_once (B : Bytes) (n : Nat)
    (order : List Nat) :
    (runSched B (atomicSched order) (initConc n)).decodes ≤ 1 := by
  have hinit : ConcInv (initConc n) := by
    refine ⟨fun p hp => Or.inl (List.eq_of_mem_replicate hp), fun _ => rfl,
      Nat.zero_le 1⟩
  exact (runSched_atomic_inv B order (initConc n) hinit).2.2

/-- C3 counterexample: the code memoizes only the decoded result, not an
in-flight operation, so two first-callers that both pass the cache check
before either decode-and-store runs (schedule 0, 1, 0, 1) perform two
decodes — refuting, in the only model where a caller can arrive "before
the first decode completes", that concurrent first-callers await one
shared decode. -/
theorem concurrent_first_callers_race :
    (runSched [9] [0, 1, 0, 1] (initConc 2)).decodes = 2 := rfl

/-- C2: the explicit override `F` of a field wins over any form default
`D` — including a default installed after the override exists — and the
form default in turn wins over the built-in standard font of the engine,
which is used only when neither is present. -/
theorem field_override_precedence (F D standardFont : FontHandle)
    (fs : ProvisioningState) (r : Bool) :
    effectiveFieldFont (some F) fs = some F ∧
      effectiveFieldFont (some F) (setFormDefault D fs) = some F ∧
      resolveFieldFont standardFont (some F) (setFormDefault D fs) = F ∧
      resolveFieldFont standardFont none (setFormDefault D fs) = D ∧
      resolveFieldFont standardFont none ⟨none, r⟩ = standardFont :=
  ⟨rfl, rfl, rfl, rfl, rfl⟩

/-- C5: migration backfills exactly the fields whose override is unset —
those end up overridden with `Y`, text untouched — and leaves every field
that already carries an explicit override entirely unchanged. -/
theorem migrate_backfill_only (Y : FontHandle) (fields : List FormField)
    (i : Nat) :
    (migrate Y fields).length = fields.length ∧
      ∀ f : FormField, fields[i]? = some f →
        (f.fontOverride = none →
          (migrate Y fields)[i]? = some { f with fontOverride := some Y }) ∧
        (∀ X : FontHandle, f.fontOverride = some X →
          (migrate Y fields)[i]? = some f) := by
  refine ⟨List.length_map fields (migrateField Y), fun f hf => ?_⟩
  have hmap : (migrate Y fields)[i]? = Option.map (migrateField Y) fields[i]? :=
    List.getElem?_map (migrateField Y) fields i
  rw [hf] at hmap
  constructor
  · intro hnone
    rw [hmap]
    simp [migrateField, hnone]
  · intro X hX
    rw [hmap]
    simp [migrateField, hX]

/-- C5 witness: fields `{a: override=5, b: unset, c: unset}` migrated with
handle `7` become `{a: 5, b: 7, c: 7}`, texts untouched. -/
theorem migrate_backfill_only_witness :
    (migrate 7 [⟨some 5, "a"⟩, ⟨none, "b"⟩, ⟨none, "c"⟩]).length = 3 ∧
      (migrate 7 [⟨some 5, "a"⟩, ⟨none, "b"⟩, ⟨none, "c"⟩])[0]? =
        some ⟨some 5, "a"⟩ ∧
      (migrate 7 [⟨some 5, "a"⟩, ⟨none, "b"⟩, ⟨none, "c"⟩])[1]? =
        some ⟨some 7, "b"⟩ ∧
      (migrate 7 [⟨some 5, "a"⟩, ⟨none, "b"⟩, ⟨none, "c"⟩])[2]? =
        some ⟨some 7, "c"⟩ :=
  ⟨(migrate_backfill_only 7 [⟨some 5, "a"⟩, ⟨none, "b"⟩, ⟨none, "c"⟩] 0).1,
    ((migrate_backfill_only 7 [⟨some 5, "a"⟩, ⟨none, "b"⟩, ⟨none, "c"⟩] 0).2
      ⟨some 5, "a"⟩ rfl).2 5 rfl,
    ((migrate_backfill_only 7 [⟨some 5, "a"⟩, ⟨none, "b"⟩, ⟨none, "c"⟩] 1).2
      ⟨none, "b"⟩ rfl).1 rfl,
    ((migrate_backfill_only 7 [⟨some 5, "a"⟩, ⟨none, "b"⟩, ⟨none, "c"⟩] 2).2
      ⟨none, "c"⟩ rfl).1 rfl⟩

/-- C6 counterexample: `LoadOptions` declares the `updateExistingFields`
option but `CreateOptions` does not, so document creation does not
recognize it — refuting that creation and loading recognize the same two
Unicode options. -/
theorem createOptions_no_updateExistingFields :
    "updateExistingFields" ∈ LoadOptions.unicodeOptionNames ∧
      "updateExistingFields" ∉ CreateOptions.unicodeOptionNames := by
  constructor
  · simp [LoadOptions.unicodeOptionNames]
  · simp [CreateOptions.unicodeOptionNames]

/-- C6 (amended): loading recognizes exactly the Unicode options
`unicodeFont` (optional binary) and `updateExistingFields` (boolean,
defaulting to `false` when absent); creation recognizes only
`unicodeFont`. -/
theorem unicode_options_recognized :
    LoadOptions.unicodeOptionNames = ["unicodeFont", "updateExistingFields"] ∧
      CreateOptions.unicodeOptionNames = ["unicodeFont"] ∧
      ∀ o : LoadOptions, o.updateExistingFields = none →
        o.updateExistingFieldsValue = false := by
  refine ⟨rfl, rfl, fun o ho => ?_⟩
  simp [LoadOptions.updateExistingFieldsValue, ho]

/-- C6 witness: an empty load configuration yields the documented default
`false` for `updateExistingFields`. -/
theorem unicode_options_recognized_witness :
    LoadOptions.updateExistingFieldsValue
      ⟨none, none, none, none, none, none, none⟩ = false :=
  unicode_options_recognized.2.2 ⟨none, none, none, none, none, none, none⟩ rfl
